import Mathlib

/-!
Verification of the `ipsw` disassembly command (`cmd/ipsw/cmd/disass.go`)
and of the Address Translator interface described by the specification.

The Go code is shallowly embedded: machine integers (`uint64`, `int64`)
become `Nat`/`Int` with explicit reduction modulo `2^64` where the source
converts between them; a Go slice-index panic is represented by `Option`
(`none` = abnormal termination); external collaborators (the capstone
decoder, `macho.FindAddressSymbol`, `macho.GetCString`, the C++ demangler)
become function parameters.
-/

/-- Go `uint64` wrap-around subtraction `a - b` (both arguments are values
of Go `uint64`, hence below `2^64`). -/
def sub64 (a b : Nat) : Nat := (a + 2 ^ 64 - b) % 2 ^ 64

/-- Go conversion `uint64(i)` of an `int64` value: reduce modulo `2^64`. -/
def toU64 (i : Int) : Nat := (i % (2 ^ 64 : Int)).toNat

/-- Go `strings.HasPrefix` on explicit character lists. -/
def charsStart : List Char → List Char → Bool
  | _, [] => true
  | [], _ :: _ => false
  | a :: s, b :: t => a == b && charsStart s t

/-- Go `strings.HasPrefix s p`. -/
def strStarts (s p : String) : Bool := charsStart s.data p.data

/-- The loop of Go `sort.Search` (`i, j := 0, n; for i < j { h := (i+j)/2;
if !f(h) { i = h+1 } else { j = h } }; return i`), written with explicit
fuel so that it evaluates by kernel reduction; every call keeps
`j - i ≤ fuel`, so the fuel never runs out on the paths the source takes. -/
def searchLoop : Nat → (Nat → Bool) → Nat → Nat → Nat
  | 0, _, i, _ => i
  | fuel + 1, f, i, j =>
    if i < j then
      let h := (i + j) / 2
      if f h then searchLoop fuel f i h else searchLoop fuel f (h + 1) j
    else i

/-- Go `sort.Search(n, f)`. -/
def sortSearch (n : Nat) (f : Nat → Bool) : Nat := searchLoop n f 0 n

/-- Model of `isFunctionStart` from `disass.go`:

    i := sort.Search(len(starts), func(i int) bool { return starts[i] >= addr })
    if i < len(starts) && starts[i] == addr { return starts[i+1] - addr }
    return 0

The unchecked read `starts[i+1]` panics when `i+1 = len(starts)`; that
path is `none`. In-range probes of `starts[k]` are written `getD k 0`
(the search only probes indices below `len(starts)`). -/
def isFunctionStart (starts : List Nat) (addr : Nat) : Option Nat :=
  let i := sortSearch starts.length (fun k => decide (starts.getD k 0 ≥ addr))
  match starts[i]? with
  | some v =>
    if v = addr then
      match starts[i + 1]? with
      | some next => some (sub64 next addr)
      | none => none
    else some 0
  | none => some 0

/-- A capstone ARM64 memory operand: the fields `disass.go` reads
(`Mem.Base`, `Mem.Disp`). Registers are their enum values. -/
structure MemRef where
  base : Nat
  disp : Int
  deriving DecidableEq, Inhabited

/-- A capstone ARM64 operand: the fields `disass.go` reads (`Reg`, `Imm`,
`Mem`); the Go code reads them without consulting the operand's type tag,
so the tag is not modelled. -/
structure Operand where
  reg : Nat
  imm : Int
  mem : MemRef
  deriving DecidableEq, Inhabited

/-- A decoded instruction record (`gapstone.Instruction` plus its
`Arm64` detail): address, mnemonic, operand string, operand list.
A nil operand slice and an empty one behave identically in every
`!= nil && len(...) > k` test of the source, so both are `[]`. -/
structure Instruction where
  address : Nat
  mnemonic : String
  opStr : String
  operands : List Operand
  deriving DecidableEq, Inhabited

/-- Model of `doDemangle` from `disass.go`, with the external `demangle.Filter`
as a parameter. The source indexes `name[0]` unconditionally (panicking
on an empty name); names are ASCII, so byte indexing is char indexing. -/
def doDemangle (filter : String → String) (name : String) : String :=
  let cs := name.data
  let skip := if cs.getD 0 ' ' = '.' ∨ cs.getD 0 ' ' = '$' then 1 else 0
  let skip := if cs.getD skip ' ' = '_' then skip + 1 else skip
  let tail := String.mk (cs.drop skip)
  let result := filter tail
  if result = tail then name
  else (if cs.getD 0 ' ' = '.' then "." else "") ++ result

/-- The `if demangleFlag { sym = doDemangle(sym) }` step applied at each
annotation site. -/
def applyDem (dem : Bool) (filter : String → String) (s : String) : String :=
  if dem then doDemangle filter s else s

/-- The address the adrp-pair annotation looks up (`disass.go` lines
197-203): start from the adrp's immediate (`Operands[1].Imm`); for `ldr`
add `Operands[1].Mem.Disp` when `Operands[1].Mem.Base` equals the adrp's
destination register `Operands[0].Reg`; for `add` add `Operands[2].Imm`
when the add's `Operands[0].Reg` equals the adrp's destination register;
otherwise leave the bare page value. The enclosing guards only ensure
two operands, so the `Operands[2]` read of the add branch is unchecked:
on a two-operand add with matching register it panics (`none`). The
other reads (`getD` 0 and 1) sit under the callers' `len > 1` guards. -/
def adrpTargetAddr (prev insn : Instruction) : Option Int :=
  let adrpRegister := (prev.operands.getD 0 default).reg
  let adrpImm := (prev.operands.getD 1 default).imm
  if insn.mnemonic = "ldr" ∧ adrpRegister = (insn.operands.getD 1 default).mem.base then
    some (adrpImm + (insn.operands.getD 1 default).mem.disp)
  else if insn.mnemonic = "add" ∧ adrpRegister = (insn.operands.getD 0 default).reg then
    match insn.operands[2]? with
    | some op2 => some (adrpImm + op2.imm)
    | none => none
  else some adrpImm

/-- The adrp-pair comment annotation (`disass.go` lines 193-219). `sl` is
`m.FindAddressSymbol` (`none` = error), `cs` is `m.GetCString`. `prev?` is
`insns[i-1]`: at the first instruction there is no previous element, and
when the guard `Verbose && (ldr || add)` reaches the access the source
indexes out of range (`none`); the unchecked `Operands[2]` read inside
the target computation is a second panic source (`none`). -/
def adrpAnnotate (verbose dem : Bool) (filter : String → String)
    (sl cs : Nat → Option String)
    (prev? : Option Instruction) (insn : Instruction) : Option Instruction :=
  if verbose ∧ (insn.mnemonic = "ldr" ∨ insn.mnemonic = "add") then
    match prev? with
    | none => none
    | some prev =>
      if prev.mnemonic = "adrp" then
        if insn.operands.length > 1 then
          if prev.operands.length > 1 then
            match adrpTargetAddr prev insn with
            | none => none
            | some target =>
              match sl (toU64 target) with
              | some sym =>
                some { insn with opStr := insn.opStr ++ " // " ++ applyDem dem filter sym }
              | none =>
                match cs (toU64 target) with
                | some cstr => some { insn with opStr := insn.opStr ++ " // " ++ cstr }
                | none => some insn
          else some insn
        else some insn
      else some insn
  else some insn

/-- The branch-target replacement (`disass.go` lines 221-232): when the
mnemonic starts with `b` and the operand string starts with `#0x`, a
successful symbol lookup at `Operands[0].Imm` replaces the operand string. -/
def branchAnnotate (dem : Bool) (filter : String → String)
    (sl : Nat → Option String) (insn : Instruction) : Instruction :=
  if strStarts insn.mnemonic "b" && strStarts insn.opStr "#0x" then
    if insn.operands.length > 0 then
      match sl (toU64 ((insn.operands.getD 0 default).imm)) with
      | some sym => { insn with opStr := applyDem dem filter sym }
      | none => insn
    else insn
  else insn

/-- The two operand-string transformations applied to one instruction, in
source order: adrp-pair comment, then branch replacement. -/
def annotateInsn (verbose dem : Bool) (filter : String → String)
    (sl cs : Nat → Option String)
    (prev? : Option Instruction) (insn : Instruction) : Option Instruction :=
  (adrpAnnotate verbose dem filter sl cs prev? insn).map (branchAnnotate dem filter sl)

/-- The function-start header (`disass.go` lines 181-191): when
`funcStarts != nil`, `isFunctionStart(...) != 0` and the symbol lookup at
the instruction's address succeeds, print `"\n<sym>:\n"`. -/
def headerLines (funcStarts : Option (List Nat)) (sl : Nat → Option String)
    (dem : Bool) (filter : String → String) (insn : Instruction) : Option (List String) :=
  match funcStarts with
  | none => some []
  | some starts =>
    match isFunctionStart starts insn.address with
    | none => none
    | some size =>
      if size ≠ 0 then
        match sl insn.address with
        | some sym => some ["\n" ++ applyDem dem filter sym ++ ":\n"]
        | none => some []
      else some []

/-- The final `fmt.Printf("0x%x:\t%s\t\t%s\n", ...)` line of the loop. -/
def printLine (insn : Instruction) : String :=
  "0x" ++ String.mk (Nat.toDigits 16 insn.address) ++ ":\t" ++ insn.mnemonic
    ++ "\t\t" ++ insn.opStr ++ "\n"

/-- The per-instruction loop of `disass.go` (lines 181-235), collecting
everything printed. `prev?` carries `insns[i-1]` (the original slice
element: the loop variable is a copy, so annotations never flow back into
the slice). `none` = a panic somewhere in the loop. -/
def disassLoop (verbose dem : Bool) (filter : String → String)
    (sl cs : Nat → Option String) (funcStarts : Option (List Nat)) :
    Option Instruction → List Instruction → Option (List String)
  | _, [] => some []
  | prev?, insn :: rest =>
    match headerLines funcStarts sl dem filter insn with
    | none => none
    | some hdr =>
      match annotateInsn verbose dem filter sl cs prev? insn with
      | none => none
      | some insn2 =>
        match disassLoop verbose dem filter sl cs funcStarts (some insn) rest with
        | none => none
        | some tail => some (hdr ++ printLine insn2 :: tail)

/-- One MachO section: the fields the `__text` search reads. -/
structure MachoSection where
  name : String
  addr : Nat
  size : Nat
  deriving DecidableEq, Inhabited

/-- Outcome of a run of the `disass` command body: normal output lines,
a returned error, or a runtime panic. -/
inductive RunResult where
  | ok (lines : List String)
  | err (msg : String)
  | panic
  deriving DecidableEq

/-- The body of the `disass` command (`disass.go` lines 97-237) after the
MachO file is opened. External collaborators are parameters:
`fsa` is `m.FindSymbolAddress`, `sl`/`cs` as in the loop, `sections` is
`m.Sections`, `funcStarts` is `m.FunctionStarts()` (nil = `none`), and
`decoded` is the combined outcome of `sec.ReadAt` plus the capstone
engine (its error, or the decoded instructions), as a function of the
buffer size `disassSize`; computing that size calls `isFunctionStart`,
which can panic. -/
def disassRun (verbose dem : Bool) (filter : String → String)
    (sl cs : Nat → Option String)
    (symbolName : String) (vaddrFlag instructions : Nat)
    (fsa : String → Except String Nat)
    (funcStarts : Option (List Nat)) (sections : List MachoSection)
    (decoded : Nat → Except String (List Instruction)) : RunResult :=
  let startAddrE : Except String Nat :=
    if symbolName.length > 0 then fsa symbolName
    else if vaddrFlag = 0 then Except.error "you must supply a vaddr to disassemble at"
    else Except.ok vaddrFlag
  match startAddrE with
  | Except.error e => RunResult.err e
  | Except.ok startAddr =>
    let funcSize? : Option Nat :=
      match funcStarts with
      | some starts => if startAddr > 0 then isFunctionStart starts startAddr else some 0
      | none => some 0
    match funcSize? with
    | none => RunResult.panic
    | some funcSize =>
      let disassSize :=
        if funcSize ≠ 0 ∧ instructions < funcSize then funcSize else 4 * instructions
      let found := sections.any fun sec =>
        sec.name == "__text" && decide (sec.addr ≤ startAddr)
          && decide (startAddr < sec.addr + sec.size)
      if found then
        match decoded disassSize with
        | Except.error e => RunResult.err e
        | Except.ok insns =>
          match disassLoop verbose dem filter sl cs funcStarts none insns with
          | none => RunResult.panic
          | some lines => RunResult.ok lines
      else RunResult.err "supplied vaddr not found in any __text section"

/-- Modelled from the spec: the Address Translator (§4.2) is not part of
the sources provided (only the disassembly command is); a `Mapping` is
the spec's contiguous region with a virtual-address range and a
file-offset range of the same size. -/
structure Mapping where
  address : Nat
  fileOffset : Nat
  size : Nat
  deriving DecidableEq, Inhabited

/-- Modelled from the spec: `addressToOffset(va)` finds the Mapping whose
virtual-address range contains `va` and returns
`mapping.fileOffsetBase + (va - mapping.addressBase)`; `none` is the
spec's `AddressNotMapped`. -/
def addressToOffset (mappings : List Mapping) (va : Nat) : Option Nat :=
  (mappings.find? fun m => decide (m.address ≤ va) && decide (va < m.address + m.size)).map
    fun m => m.fileOffset + (va - m.address)

/-- Modelled from the spec: `offsetToAddress(fo)` is the exact inverse,
searching the file-offset view of the mapping table. -/
def offsetToAddress (mappings : List Mapping) (fo : Nat) : Option Nat :=
  (mappings.find? fun m => decide (m.fileOffset ≤ fo) && decide (fo < m.fileOffset + m.size)).map
    fun m => m.address + (fo - m.fileOffset)

/-- The spec's Mapping invariant for the file-offset view: two distinct
mappings have disjoint file-offset ranges. -/
def FileDisjoint (m1 m2 : Mapping) : Prop :=
  m1.fileOffset + m1.size ≤ m2.fileOffset ∨ m2.fileOffset + m2.size ≤ m1.fileOffset

/-! ## Helper lemmas -/

theorem charsStart_append (a b : List Char) : charsStart (a ++ b) a = true := by
  induction a with
  | nil => cases b <;> rfl
  | cons c t ih => simp [charsStart, ih]

theorem strStarts_append (s t : String) : strStarts (s ++ t) s = true := by
  have h : (s ++ t).data = s.data ++ t.data := String.data_append s t
  simp [strStarts, h, charsStart_append]

theorem find?_success {α} (p : α → Bool) (l : List α) (a : α)
    (ha : a ∈ l) (hp : p a = true) :
    ∃ b, l.find? p = some b ∧ b ∈ l ∧ p b = true := by
  induction l with
  | nil => cases ha
  | cons x t ih =>
    cases hx : p x
    · rcases List.mem_cons.mp ha with h | h
      · subst h; rw [hp] at hx; exact nomatch hx
      · obtain ⟨b, hb1, hb2, hb3⟩ := ih h
        exact ⟨b, by rw [List.find?_cons_of_neg _ (by rw [hx]; exact fun hc => nomatch hc), hb1],
          List.mem_cons_of_mem x hb2, hb3⟩
    · exact ⟨x, List.find?_cons_of_pos _ hx, List.mem_cons_self x t, hx⟩

/-- Disjointness of file-offset ranges is symmetric. -/
theorem fileDisjoint_symm : Symmetric FileDisjoint := fun _ _ h => Or.symm h

instance (m1 m2 : Mapping) : Decidable (FileDisjoint m1 m2) := by
  unfold FileDisjoint
  infer_instance

/-! ## Claims -/

/-- C3: on the sorted function-start array `[100, 140, 200]` the boundary
lookup returns size `60` (= `200 - 140`) at address `140`, and `0` at
address `150`, which matches no entry. -/
theorem c3_function_boundary :
    isFunctionStart [100, 140, 200] 140 = some 60 ∧
      isFunctionStart [100, 140, 200] 150 = some 0 := by
  decide

/-- C6: the boundary lookup is not total: when the queried address equals
the last entry of the sorted array, the source reads `starts[i+1]` with
`i+1 = len(starts)`, an out-of-range index that panics at runtime
(modelled as `none`) instead of returning `0`. -/
theorem c6_last_entry_panics : isFunctionStart [100, 140, 200] 200 = none := by
  decide

/-- C1: for the pair `adrp r, #PAGE; ldr r, [r, #0xcb8]` whose target
`PAGE + 0xcb8` resolves to symbol `sym`, the annotator appends
`" // sym"` to the ldr's operand string, and the original operand string
is kept as a prefix of the result. -/
theorem c1_adrp_ldr_comment (filter : String → String) (sl cs : Nat → Option String)
    (prev insn : Instruction) (page : Int) (sym : String)
    (hprev : prev.mnemonic = "adrp")
    (hldr : insn.mnemonic = "ldr")
    (hplen : prev.operands.length > 1)
    (hilen : insn.operands.length > 1)
    (hpage : (prev.operands.getD 1 default).imm = page)
    (hreg : (insn.operands.getD 1 default).mem.base = (prev.operands.getD 0 default).reg)
    (hdisp : (insn.operands.getD 1 default).mem.disp = 0xcb8)
    (hsym : sl (toU64 (page + 0xcb8)) = some sym) :
    adrpAnnotate true false filter sl cs (some prev) insn
        = some { insn with opStr := insn.opStr ++ " // " ++ sym } ∧
      strStarts (insn.opStr ++ " // " ++ sym) insn.opStr = true := by
  have htgt : adrpTargetAddr prev insn = some (page + 0xcb8) := by
    rw [adrpTargetAddr, if_pos ⟨hldr, hreg.symm⟩, hpage, hdisp]
  constructor
  · rw [adrpAnnotate, if_pos ⟨rfl, Or.inl hldr⟩, if_pos hprev, if_pos hilen, if_pos hplen]
    simp only [htgt, hsym]
    simp [applyDem]
  · rw [String.append_assoc]
    exact strStarts_append insn.opStr (" // " ++ sym)

/-- C1 witness: a concrete `adrp x8, #0x1000; ldr x8, [x8, #0xcb8]` pair
with a symbol at `0x1cb8`. -/
theorem c1_witness :
    adrpAnnotate true false id
        (fun a => if a = 0x1cb8 then some "_known_symbol" else none) (fun _ => none)
        (some ⟨0x100, "adrp", "x8, #0x1000", [⟨8, 0, ⟨0, 0⟩⟩, ⟨0, 0x1000, ⟨0, 0⟩⟩]⟩)
        ⟨0x104, "ldr", "x8, [x8, #0xcb8]", [⟨8, 0, ⟨0, 0⟩⟩, ⟨0, 0, ⟨8, 0xcb8⟩⟩]⟩
      = some ⟨0x104, "ldr", "x8, [x8, #0xcb8] // _known_symbol",
          [⟨8, 0, ⟨0, 0⟩⟩, ⟨0, 0, ⟨8, 0xcb8⟩⟩]⟩ := by
  have h := c1_adrp_ldr_comment id
    (fun a => if a = 0x1cb8 then some "_known_symbol" else none) (fun _ => none)
    ⟨0x100, "adrp", "x8, #0x1000", [⟨8, 0, ⟨0, 0⟩⟩, ⟨0, 0x1000, ⟨0, 0⟩⟩]⟩
    ⟨0x104, "ldr", "x8, [x8, #0xcb8]", [⟨8, 0, ⟨0, 0⟩⟩, ⟨0, 0, ⟨8, 0xcb8⟩⟩]⟩
    0x1000 "_known_symbol" rfl rfl (by decide) (by decide) rfl rfl rfl (by decide)
  exact h.1

/-- C2: for a branch-class instruction (mnemonic starting with `b`) whose
operand string is a literal address (starting with `#0x`), a successful
symbol lookup at the literal target replaces the operand string entirely
with the symbol name; a failed lookup leaves it unchanged. -/
theorem c2_branch_replace (filter : String → String) (sl : Nat → Option String)
    (insn : Instruction)
    (hb : strStarts insn.mnemonic "b" = true)
    (hlit : strStarts insn.opStr "#0x" = true)
    (hops : insn.operands.length > 0) :
    (∀ sym, sl (toU64 ((insn.operands.getD 0 default).imm)) = some sym →
        branchAnnotate false filter sl insn = { insn with opStr := sym }) ∧
      (sl (toU64 ((insn.operands.getD 0 default).imm)) = none →
        branchAnnotate false filter sl insn = insn) := by
  constructor
  · intro sym hsym
    rw [branchAnnotate, if_pos (by rw [hb, hlit]; rfl), if_pos hops, hsym]
    rfl
  · intro hnone
    rw [branchAnnotate, if_pos (by rw [hb, hlit]; rfl), if_pos hops, hnone]

/-- C2 witness: `bl #0x4000` with a symbol at `0x4000`. -/
theorem c2_witness :
    branchAnnotate false id (fun a => if a = 0x4000 then some "_callee" else none)
        ⟨0x100, "bl", "#0x4000", [⟨0, 0x4000, ⟨0, 0⟩⟩]⟩
      = ⟨0x100, "bl", "_callee", [⟨0, 0x4000, ⟨0, 0⟩⟩]⟩ := by
  have h := c2_branch_replace id (fun a => if a = 0x4000 then some "_callee" else none)
    ⟨0x100, "bl", "#0x4000", [⟨0, 0x4000, ⟨0, 0⟩⟩]⟩ (by decide) (by decide) (by decide)
  exact h.1 "_callee" (by decide)

/-- C5: once the adrp-pair pattern has matched and the combined address
has been computed (the target computation returns, rather than panicking
on the unchecked `Operands[2]` read), the symbol lookup at that address
is tried first; the constant-string lookup runs only when the symbol
lookup fails; the comment is the symbol when one matches, else the C
string when readable, and the instruction is unchanged when both fail. -/
theorem c5_symbol_then_cstring (filter : String → String) (sl cs : Nat → Option String)
    (prev insn : Instruction) (target : Int)
    (hprev : prev.mnemonic = "adrp")
    (hmn : insn.mnemonic = "ldr" ∨ insn.mnemonic = "add")
    (hplen : prev.operands.length > 1)
    (hilen : insn.operands.length > 1)
    (htgt : adrpTargetAddr prev insn = some target) :
    (∀ sym, sl (toU64 target) = some sym →
        adrpAnnotate true false filter sl cs (some prev) insn
          = some { insn with opStr := insn.opStr ++ " // " ++ sym }) ∧
      (∀ cstr, sl (toU64 target) = none →
        cs (toU64 target) = some cstr →
        adrpAnnotate true false filter sl cs (some prev) insn
          = some { insn with opStr := insn.opStr ++ " // " ++ cstr }) ∧
      (sl (toU64 target) = none →
        cs (toU64 target) = none →
        adrpAnnotate true false filter sl cs (some prev) insn = some insn) := by
  refine ⟨?_, ?_, ?_⟩
  · intro sym hsym
    rw [adrpAnnotate, if_pos ⟨rfl, hmn⟩, if_pos hprev, if_pos hilen, if_pos hplen]
    simp only [htgt, hsym]
    simp [applyDem]
  · intro cstr hnone hcstr
    rw [adrpAnnotate, if_pos ⟨rfl, hmn⟩, if_pos hprev, if_pos hilen, if_pos hplen]
    simp only [htgt, hnone, hcstr]
  · intro hnone hcnone
    rw [adrpAnnotate, if_pos ⟨rfl, hmn⟩, if_pos hprev, if_pos hilen, if_pos hplen]
    simp only [htgt, hnone, hcnone]

/-- C5 witness: the fallback case — no symbol at the combined address,
but a readable C string there. -/
theorem c5_witness :
    adrpAnnotate true false id (fun _ => none)
        (fun a => if a = 0x2008 then some "fmt-string" else none)
        (some ⟨0x100, "adrp", "x1, #0x2000", [⟨1, 0, ⟨0, 0⟩⟩, ⟨0, 0x2000, ⟨0, 0⟩⟩]⟩)
        ⟨0x104, "add", "x1, x1, #0x8", [⟨1, 0, ⟨0, 0⟩⟩, ⟨1, 0, ⟨0, 0⟩⟩, ⟨0, 0x8, ⟨0, 0⟩⟩]⟩
      = some ⟨0x104, "add", "x1, x1, #0x8 // fmt-string",
          [⟨1, 0, ⟨0, 0⟩⟩, ⟨1, 0, ⟨0, 0⟩⟩, ⟨0, 0x8, ⟨0, 0⟩⟩]⟩ := by
  have h := c5_symbol_then_cstring id (fun _ => none)
    (fun a => if a = 0x2008 then some "fmt-string" else none)
    ⟨0x100, "adrp", "x1, #0x2000", [⟨1, 0, ⟨0, 0⟩⟩, ⟨0, 0x2000, ⟨0, 0⟩⟩]⟩
    ⟨0x104, "add", "x1, x1, #0x8", [⟨1, 0, ⟨0, 0⟩⟩, ⟨1, 0, ⟨0, 0⟩⟩, ⟨0, 0x8, ⟨0, 0⟩⟩]⟩
    0x2008 rfl (Or.inr rfl) (by decide) (by decide) (by decide)
  exact h.2.1 "fmt-string" rfl (by decide)

/-- A mnemonic that starts with `b` is neither `ldr` nor `add`. -/
theorem strStarts_b_ne (s : String) (h : strStarts s "b" = true) :
    s ≠ "ldr" ∧ s ≠ "add" := by
  constructor <;> intro he <;> subst he <;> exact absurd h (by decide)

/-- C10: the adrp-pair comment is gated on verbose mode — with verbose
off, every `ldr`/`add` instruction passes through both annotation steps
with its operand string exactly as decoded — while the branch-target
replacement fires for any verbose setting. -/
theorem c10_verbose_gating :
    (∀ (dem : Bool) (filter : String → String) (sl cs : Nat → Option String)
        (prev? : Option Instruction) (insn : Instruction),
      insn.mnemonic = "ldr" ∨ insn.mnemonic = "add" →
      annotateInsn false dem filter sl cs prev? insn = some insn) ∧
      (∀ (verbose : Bool) (filter : String → String) (sl cs : Nat → Option String)
          (prev? : Option Instruction) (insn : Instruction) (sym : String),
        strStarts insn.mnemonic "b" = true →
        strStarts insn.opStr "#0x" = true →
        insn.operands.length > 0 →
        sl (toU64 ((insn.operands.getD 0 default).imm)) = some sym →
        annotateInsn verbose false filter sl cs prev? insn = some { insn with opStr := sym }) := by
  constructor
  · intro dem filter sl cs prev? insn hmn
    have hpass : adrpAnnotate false dem filter sl cs prev? insn = some insn := by
      rw [adrpAnnotate.eq_def, if_neg]
      intro hc
      exact Bool.false_ne_true hc.1
    have hbr : branchAnnotate dem filter sl insn = insn := by
      rw [branchAnnotate, if_neg]
      intro hc
      rw [Bool.and_eq_true] at hc
      rcases hmn with hm | hm <;> rw [hm] at hc
      · exact absurd hc.1 (by decide)
      · exact absurd hc.1 (by decide)
    rw [annotateInsn, hpass, Option.map_some', hbr]
  · intro verbose filter sl cs prev? insn sym hb hlit hops hsym
    have hne := strStarts_b_ne insn.mnemonic hb
    have hpass : adrpAnnotate verbose false filter sl cs prev? insn = some insn := by
      rw [adrpAnnotate.eq_def, if_neg]
      intro hc
      rcases hc.2 with hm | hm
      · exact hne.1 hm
      · exact hne.2 hm
    have hbr : branchAnnotate false filter sl insn = { insn with opStr := sym } := by
      rw [branchAnnotate, if_pos (by rw [hb, hlit]; rfl), if_pos hops, hsym]
      rfl
    rw [annotateInsn, hpass, Option.map_some', hbr]

/-- C10 witness: with verbose off an `ldr` after `adrp` is not annotated;
with verbose off a `b` to a known symbol is still replaced. -/
theorem c10_witness :
    annotateInsn false false id (fun a => if a = 0x1cb8 then some "_s" else none)
        (fun _ => none)
        (some ⟨0x100, "adrp", "x8, #0x1000", [⟨8, 0, ⟨0, 0⟩⟩, ⟨0, 0x1000, ⟨0, 0⟩⟩]⟩)
        ⟨0x104, "ldr", "x8, [x8, #0xcb8]", [⟨8, 0, ⟨0, 0⟩⟩, ⟨0, 0, ⟨8, 0xcb8⟩⟩]⟩
      = some ⟨0x104, "ldr", "x8, [x8, #0xcb8]", [⟨8, 0, ⟨0, 0⟩⟩, ⟨0, 0, ⟨8, 0xcb8⟩⟩]⟩ ∧
      annotateInsn false false id (fun a => if a = 0x4000 then some "_callee" else none)
        (fun _ => none) none ⟨0x100, "b", "#0x4000", [⟨0, 0x4000, ⟨0, 0⟩⟩]⟩
      = some ⟨0x100, "b", "_callee", [⟨0, 0x4000, ⟨0, 0⟩⟩]⟩ := by
  constructor
  · exact c10_verbose_gating.1 false id (fun a => if a = 0x1cb8 then some "_s" else none)
      (fun _ => none)
      (some ⟨0x100, "adrp", "x8, #0x1000", [⟨8, 0, ⟨0, 0⟩⟩, ⟨0, 0x1000, ⟨0, 0⟩⟩]⟩)
      ⟨0x104, "ldr", "x8, [x8, #0xcb8]", [⟨8, 0, ⟨0, 0⟩⟩, ⟨0, 0, ⟨8, 0xcb8⟩⟩]⟩ (Or.inl rfl)
  · exact c10_verbose_gating.2 false id (fun a => if a = 0x4000 then some "_callee" else none)
      (fun _ => none) none ⟨0x100, "b", "#0x4000", [⟨0, 0x4000, ⟨0, 0⟩⟩]⟩ "_callee"
      (by decide) (by decide) (by decide) (by decide)

/-- The pair `adrp x8, #0x1000; add x9, x8, #0x10`: the add's base
(source) register x8 equals the adrp's destination register, but its
destination register x9 does not. -/
def adrpInsnX : Instruction :=
  ⟨0x100, "adrp", "x8, #0x1000", [⟨8, 0, ⟨0, 0⟩⟩, ⟨0, 0x1000, ⟨0, 0⟩⟩]⟩

/-- See `adrpInsnX`. -/
def addInsnX : Instruction :=
  ⟨0x104, "add", "x9, x8, #0x10", [⟨9, 0, ⟨0, 0⟩⟩, ⟨8, 0, ⟨0, 0⟩⟩, ⟨0, 0x10, ⟨0, 0⟩⟩]⟩

/-- C4 counterexample: for `add x9, x8, #0x10` after `adrp x8, #0x1000`
the add's base register (operand 1) equals the adrp destination, yet the
code does not combine the page with the immediate (it keeps the bare
page `0x1000` instead of `0x1010`): the combination test for `add` reads
operand 0 (the destination), not the base register. -/
theorem c4_counterexample :
    (addInsnX.operands.getD 1 default).reg = (adrpInsnX.operands.getD 0 default).reg ∧
      adrpTargetAddr adrpInsnX addInsnX
        ≠ some ((adrpInsnX.operands.getD 1 default).imm
          + (addInsnX.operands.getD 2 default).imm) := by
  decide

/-- C4 amended: the page immediate is combined with the displacement or
immediate exactly when — for `ldr` — the memory operand's base register
equals the adrp destination register, and — for a three-operand `add` —
the add's operand 0 (its destination register) equals the adrp
destination register; otherwise the bare page value is kept. On an `add`
with only two operands whose operand 0 matches, the source's unchecked
`Operands[2]` read panics instead of combining. -/
theorem c4_combine_condition (prev insn : Instruction) :
    (insn.mnemonic = "ldr" →
      adrpTargetAddr prev insn =
        some (if (prev.operands.getD 0 default).reg
            = (insn.operands.getD 1 default).mem.base then
          (prev.operands.getD 1 default).imm + (insn.operands.getD 1 default).mem.disp
        else (prev.operands.getD 1 default).imm)) ∧
      (insn.mnemonic = "add" → insn.operands.length > 2 →
        adrpTargetAddr prev insn =
          some (if (prev.operands.getD 0 default).reg = (insn.operands.getD 0 default).reg then
            (prev.operands.getD 1 default).imm + (insn.operands.getD 2 default).imm
          else (prev.operands.getD 1 default).imm)) ∧
      (insn.mnemonic = "add" → insn.operands.length ≤ 2 →
        (prev.operands.getD 0 default).reg = (insn.operands.getD 0 default).reg →
        adrpTargetAddr prev insn = none) := by
  refine ⟨?_, ?_, ?_⟩
  · intro hldr
    by_cases h : (prev.operands.getD 0 default).reg = (insn.operands.getD 1 default).mem.base
    · rw [adrpTargetAddr, if_pos ⟨hldr, h⟩, if_pos h]
    · rw [adrpTargetAddr, if_neg (fun hc => h hc.2), if_neg (fun hc => by
        rw [hldr] at hc; exact absurd hc.1 (by decide)), if_neg h]
  · intro hadd hlen
    have hnl : ¬(insn.mnemonic = "ldr" ∧
        (prev.operands.getD 0 default).reg = (insn.operands.getD 1 default).mem.base) := by
      intro hc; rw [hadd] at hc; exact absurd hc.1 (by decide)
    have h2 : insn.operands[2]? = some (insn.operands.getD 2 default) := by
      rw [List.getElem?_eq_getElem hlen, List.getD_eq_getElem insn.operands default hlen]
    by_cases h : (prev.operands.getD 0 default).reg = (insn.operands.getD 0 default).reg
    · rw [adrpTargetAddr, if_neg hnl, if_pos ⟨hadd, h⟩, h2, if_pos h]
    · rw [adrpTargetAddr, if_neg hnl, if_neg (fun hc => h hc.2), if_neg h]
  · intro hadd hlen hreg
    have hnl : ¬(insn.mnemonic = "ldr" ∧
        (prev.operands.getD 0 default).reg = (insn.operands.getD 1 default).mem.base) := by
      intro hc; rw [hadd] at hc; exact absurd hc.1 (by decide)
    have h2 : insn.operands[2]? = none := by
      rw [List.getElem?_eq_none]
      omega
    rw [adrpTargetAddr, if_neg hnl, if_pos ⟨hadd, hreg⟩, h2]

/-- C4 witness: the amended condition evaluated on `adrp x8, #0x1000;
add x9, x8, #0x10` — operand 0 of the add is x9 ≠ x8, so the bare page
is kept. -/
theorem c4_witness : adrpTargetAddr adrpInsnX addInsnX = some 0x1000 := by
  have h := (c4_combine_condition adrpInsnX addInsnX).2.1 rfl (by decide)
  rw [h, if_neg (by decide)]
  decide

/-- C9: the disassemble command requires a start location. With no symbol
name and a zero (absent) virtual-address flag it fails with an error and
emits no instructions; and with a start address contained in no `__text`
section it likewise errors out instead of producing output (provided the
buffer-size computation's `isFunctionStart` call returns, which it always
does when the function-start table is absent). -/
theorem c9_requires_start :
    (∀ (verbose dem : Bool) (filter : String → String) (sl cs : Nat → Option String)
        (instructions : Nat) (fsa : String → Except String Nat)
        (funcStarts : Option (List Nat)) (sections : List MachoSection)
        (decoded : Nat → Except String (List Instruction)),
      disassRun verbose dem filter sl cs "" 0 instructions fsa funcStarts sections decoded
        = RunResult.err "you must supply a vaddr to disassemble at") ∧
      (∀ (verbose dem : Bool) (filter : String → String) (sl cs : Nat → Option String)
          (vaddr instructions : Nat) (fsa : String → Except String Nat)
          (funcStarts : Option (List Nat)) (sections : List MachoSection)
          (decoded : Nat → Except String (List Instruction)),
        vaddr ≠ 0 →
        (∀ starts, funcStarts = some starts → isFunctionStart starts vaddr ≠ none) →
        (∀ sec ∈ sections,
          ¬(sec.name = "__text" ∧ sec.addr ≤ vaddr ∧ vaddr < sec.addr + sec.size)) →
        disassRun verbose dem filter sl cs "" vaddr instructions fsa funcStarts sections decoded
          = RunResult.err "supplied vaddr not found in any __text section") := by
  constructor
  · intro verbose dem filter sl cs instructions fsa funcStarts sections decoded
    rfl
  · intro verbose dem filter sl cs vaddr instructions fsa funcStarts sections decoded
      hv hfs hsec
    rw [disassRun]
    have hlen : ¬("".length > 0) := by decide
    rw [if_neg hlen, if_neg hv]
    have hfound : (sections.any fun sec =>
        sec.name == "__text" && decide (sec.addr ≤ vaddr)
          && decide (vaddr < sec.addr + sec.size)) = false := by
      rw [List.any_eq_false]
      intro sec hmem
      have hns := hsec sec hmem
      intro hc
      rw [Bool.and_eq_true, Bool.and_eq_true] at hc
      exact hns ⟨by simpa using hc.1.1, of_decide_eq_true hc.1.2, of_decide_eq_true hc.2⟩
    rcases funcStarts with _ | starts
    · simp only [hfound]
      rfl
    · rcases hsize : isFunctionStart starts vaddr with _ | size
      · exact absurd hsize (hfs starts rfl)
      · have hpos : vaddr > 0 := Nat.pos_of_ne_zero hv
        simp only [if_pos hpos, hsize, hfound]
        rfl

/-- C9 witness: missing vaddr errors out; vaddr `0x5000` outside the only
(data) section errors out. -/
theorem c9_witness :
    disassRun false false id (fun _ => none) (fun _ => none) "" 0 20
        (fun _ => Except.error "no symbol") none [⟨"__data", 0x4000, 0x100⟩]
        (fun _ => Except.ok [])
      = RunResult.err "you must supply a vaddr to disassemble at" ∧
      disassRun false false id (fun _ => none) (fun _ => none) "" 0x5000 20
        (fun _ => Except.error "no symbol") none [⟨"__data", 0x4000, 0x100⟩]
        (fun _ => Except.ok [])
      = RunResult.err "supplied vaddr not found in any __text section" := by
  constructor
  · exact c9_requires_start.1 false false id (fun _ => none) (fun _ => none) 20
      (fun _ => Except.error "no symbol") none [⟨"__data", 0x4000, 0x100⟩]
      (fun _ => Except.ok [])
  · exact c9_requires_start.2 false false id (fun _ => none) (fun _ => none) 0x5000 20
      (fun _ => Except.error "no symbol") none [⟨"__data", 0x4000, 0x100⟩]
      (fun _ => Except.ok []) (by decide) (fun s h => nomatch h) (by decide)

/-- Invariant of the `sort.Search` loop: with enough fuel and a monotone
predicate, the result `r` lies in `[i, j]`, everything below `r` tests
false and everything from `r` up to `j` tests true. -/
theorem searchLoop_spec (f : Nat → Bool) (fuel : Nat) :
    ∀ i j : Nat, i ≤ j → j - i ≤ fuel →
    (∀ a b, i ≤ a → a ≤ b → b < j → f a = true → f b = true) →
    i ≤ searchLoop fuel f i j ∧ searchLoop fuel f i j ≤ j ∧
      (∀ k, i ≤ k → k < searchLoop fuel f i j → f k = false) ∧
      (∀ k, searchLoop fuel f i j ≤ k → k < j → f k = true) := by
  induction fuel with
  | zero =>
    intro i j hij hfuel _
    have hej : i = j := by omega
    subst hej
    rw [searchLoop]
    exact ⟨le_refl _, le_refl _,
      fun k h1 h2 => absurd h2 (by omega), fun k h1 h2 => absurd h2 (by omega)⟩
  | succ fuel ih =>
    intro i j hij hfuel hmono
    rw [searchLoop]
    by_cases hlt : i < j
    · rw [if_pos hlt]
      have hml : i ≤ (i + j) / 2 := by omega
      have hmu : (i + j) / 2 < j := by omega
      by_cases hfm : f ((i + j) / 2) = true
      · rw [if_pos hfm]
        obtain ⟨h1, h2, h3, h4⟩ := ih i ((i + j) / 2) hml (by omega)
          (fun a b ha hab hb hfa => hmono a b ha hab (by omega) hfa)
        refine ⟨h1, by omega, h3, ?_⟩
        intro k hk1 hk2
        by_cases hkm : k < (i + j) / 2
        · exact h4 k hk1 hkm
        · exact hmono ((i + j) / 2) k hml (by omega) hk2 hfm
      · rw [if_neg hfm]
        obtain ⟨h1, h2, h3, h4⟩ := ih ((i + j) / 2 + 1) j (by omega) (by omega)
          (fun a b ha hab hb hfa => hmono a b (by omega) hab hb hfa)
        refine ⟨by omega, h2, ?_, h4⟩
        intro k hk1 hk2
        by_cases hkm : (i + j) / 2 + 1 ≤ k
        · exact h3 k hkm hk2
        · cases hcase : f k
          · rfl
          · exact absurd (hmono k ((i + j) / 2) hk1 (by omega) hmu hcase) hfm
    · rw [if_neg hlt]
      have hej : i = j := by omega
      subst hej
      exact ⟨le_refl _, le_refl _,
        fun k h1 h2 => absurd h2 (by omega), fun k h1 h2 => absurd h2 (by omega)⟩

/-- Go `uint64` subtraction agrees with `Nat` subtraction when the values
fit and do not underflow. -/
theorem sub64_eq (a b : Nat) (hba : b ≤ a) (ha : a < 2 ^ 64) : sub64 a b = a - b := by
  rw [sub64]
  omega

/-- On a strictly ascending table whose entries are `uint64` values, the
boundary lookup at entry `k` (with `k` not last) returns the distance to
entry `k + 1`. -/
theorem isFunctionStart_at_entry (starts : List Nat) (k : Nat)
    (hsort : List.Sorted (· < ·) starts)
    (hk1 : k + 1 < starts.length)
    (hbound : ∀ x ∈ starts, x < 2 ^ 64) :
    isFunctionStart starts starts[k] = some (starts[k + 1] - starts[k]) := by
  have hk : k < starts.length := by omega
  have hmono : ∀ a b, 0 ≤ a → a ≤ b → b < starts.length →
      decide (starts.getD a 0 ≥ starts[k]) = true →
      decide (starts.getD b 0 ≥ starts[k]) = true := by
    intro a b _ hab hb hfa
    rw [decide_eq_true_iff] at hfa ⊢
    rw [List.getD_eq_getElem starts 0 (by omega)] at hfa
    rw [List.getD_eq_getElem starts 0 hb]
    rcases Nat.eq_or_lt_of_le hab with hab' | hab'
    · subst hab'; exact hfa
    · have := hsort.rel_get_of_lt (a := ⟨a, by omega⟩) (b := ⟨b, hb⟩) hab'
      simp only [List.get_eq_getElem] at this
      omega
  obtain ⟨h1, h2, h3, h4⟩ := searchLoop_spec
    (fun t => decide (starts.getD t 0 ≥ starts[k])) starts.length 0 starts.length
    (Nat.zero_le _) (by omega) hmono
  have hfk : decide (starts.getD k 0 ≥ starts[k]) = true := by
    rw [decide_eq_true_iff, List.getD_eq_getElem starts 0 hk]
  have hrk : searchLoop starts.length (fun t => decide (starts.getD t 0 ≥ starts[k]))
      0 starts.length ≤ k := by
    by_contra hc
    have hfalse := h3 k (Nat.zero_le _) (by omega)
    rw [hfk] at hfalse
    exact nomatch hfalse
  have hreq : searchLoop starts.length (fun t => decide (starts.getD t 0 ≥ starts[k]))
      0 starts.length = k := by
    rcases Nat.eq_or_lt_of_le hrk with h | h
    · exact h
    · exfalso
      have hfr := h4 _ (le_refl _) (by omega)
      rw [decide_eq_true_iff, List.getD_eq_getElem starts 0 (by omega)] at hfr
      have := hsort.rel_get_of_lt
        (a := ⟨searchLoop starts.length (fun t => decide (starts.getD t 0 ≥ starts[k]))
          0 starts.length, by omega⟩) (b := ⟨k, hk⟩) h
      simp only [List.get_eq_getElem] at this
      omega
  have hlt : starts[k] < starts[k + 1] := by
    have := hsort.rel_get_of_lt (a := ⟨k, hk⟩) (b := ⟨k + 1, hk1⟩) (by simp)
    simpa using this
  simp only [isFunctionStart, sortSearch, hreq, List.getElem?_eq_getElem hk,
    List.getElem?_eq_getElem hk1, if_pos rfl]
  rw [sub64_eq _ _ (le_of_lt hlt) (hbound _ (List.getElem_mem hk1)), if_pos trivial]

/-- C7: during the scan, an instruction whose address matches a (non-last)
entry of the strictly ascending function-start table, and whose address
resolves to a symbol, gets a label header `"\n<sym>:\n"` emitted before
its own printed line. -/
theorem c7_label_header (verbose : Bool) (filter : String → String)
    (sl cs : Nat → Option String) (starts : List Nat) (k : Nat)
    (insn insn2 : Instruction) (rest : List Instruction) (prev? : Option Instruction)
    (sym : String) (tail : List String)
    (hsort : List.Sorted (· < ·) starts)
    (hbound : ∀ x ∈ starts, x < 2 ^ 64)
    (hk1 : k + 1 < starts.length)
    (haddr : insn.address = starts[k])
    (hsym : sl insn.address = some sym)
    (hann : annotateInsn verbose false filter sl cs prev? insn = some insn2)
    (htail : disassLoop verbose false filter sl cs (some starts) (some insn) rest
      = some tail) :
    disassLoop verbose false filter sl cs (some starts) prev? (insn :: rest)
      = some (("\n" ++ sym ++ ":\n") :: printLine insn2 :: tail) := by
  have hdr : headerLines (some starts) sl false filter insn
      = some ["\n" ++ sym ++ ":\n"] := by
    have hlt : starts[k] < starts[k + 1] := by
      have := hsort.rel_get_of_lt (a := ⟨k, by omega⟩) (b := ⟨k + 1, hk1⟩) (by simp)
      simpa using this
    have hfs : isFunctionStart starts insn.address = some (starts[k + 1] - starts[k]) := by
      rw [haddr, isFunctionStart_at_entry starts k hsort hk1 hbound]
    rw [headerLines, hfs]
    have hne : starts[k + 1] - starts[k] ≠ 0 := by omega
    simp only [if_pos hne, hsym]
    rfl
  rw [disassLoop, hdr, hann, htail]
  rfl

/-- C7 witness: an instruction at `140`, the second entry of the table
`[100, 140, 200]`, resolving to symbol `_func_8c`, gets its label header
emitted before its own line. -/
theorem c7_witness :
    disassLoop false false id (fun a => if a = 140 then some "_func_8c" else none)
        (fun _ => none) (some [100, 140, 200]) none [⟨140, "ret", "", []⟩]
      = some ["\n_func_8c:\n", printLine ⟨140, "ret", "", []⟩] := by
  exact c7_label_header false id (fun a => if a = 140 then some "_func_8c" else none)
    (fun _ => none) [100, 140, 200] 1 ⟨140, "ret", "", []⟩ ⟨140, "ret", "", []⟩ [] none
    "_func_8c" [] (by decide) (by decide) (by decide) (by decide) (by decide)
    (by decide) (by decide)

/-- C8: for every virtual address inside some Mapping of a table whose
file-offset ranges are pairwise disjoint (the spec's Mapping invariant),
translating to a file offset and back is the identity. -/
theorem c8_roundtrip (mappings : List Mapping) (m : Mapping) (va : Nat)
    (hdisj : mappings.Pairwise FileDisjoint)
    (hm : m ∈ mappings)
    (hlo : m.address ≤ va) (hhi : va < m.address + m.size) :
    (addressToOffset mappings va).bind (offsetToAddress mappings) = some va := by
  obtain ⟨m0, hf0, hmem0, hp0⟩ := find?_success
    (fun mp => decide (mp.address ≤ va) && decide (va < mp.address + mp.size))
    mappings m hm (by simp [hlo, hhi])
  rw [Bool.and_eq_true, decide_eq_true_iff, decide_eq_true_iff] at hp0
  rw [addressToOffset, hf0, Option.map_some', Option.some_bind]
  have hfo1 : m0.fileOffset ≤ m0.fileOffset + (va - m0.address) := by omega
  have hfo2 : m0.fileOffset + (va - m0.address) < m0.fileOffset + m0.size := by omega
  obtain ⟨m1, hf1, hmem1, hp1⟩ := find?_success
    (fun mp => decide (mp.fileOffset ≤ m0.fileOffset + (va - m0.address))
      && decide (m0.fileOffset + (va - m0.address) < mp.fileOffset + mp.size))
    mappings m0 hmem0 (by simp [hfo1, hfo2])
  rw [Bool.and_eq_true, decide_eq_true_iff, decide_eq_true_iff] at hp1
  rw [offsetToAddress, hf1, Option.map_some']
  by_cases heq : m1 = m0
  · subst heq
    have : m1.address + (m1.fileOffset + (va - m1.address) - m1.fileOffset) = va := by omega
    rw [this]
  · exfalso
    have hd := hdisj.forall fileDisjoint_symm hmem1 hmem0 heq
    rcases hd with hd | hd <;> omega

/-- C8 witness: the spec's scenario — `__TEXT` at `0x180000000` mapped to
file offset `0`, `__AUTH` at `0x1D7B18000` mapped to `0x53B18000`; the
round trip at `0x1D7B18000` (which `addressToOffset` sends to
`0x53B18000`) returns the address unchanged. -/
theorem c8_witness :
    (addressToOffset [⟨0x180000000, 0x0, 0x4C6C0000⟩, ⟨0x1D7B18000, 0x53B18000, 0x518C000⟩]
        0x1D7B18000).bind
      (offsetToAddress [⟨0x180000000, 0x0, 0x4C6C0000⟩, ⟨0x1D7B18000, 0x53B18000, 0x518C000⟩])
      = some 0x1D7B18000 := by
  exact c8_roundtrip
    [⟨0x180000000, 0x0, 0x4C6C0000⟩, ⟨0x1D7B18000, 0x53B18000, 0x518C000⟩]
    ⟨0x1D7B18000, 0x53B18000, 0x518C000⟩ 0x1D7B18000
    (by decide) (by decide) (by decide) (by decide)
